import Mathlib

/-!
# Verification of the route-recognizer engine (src/lib/router.js)

A shallow embedding of the route-recognizer module (the second, main version in
src/lib/router.js: the `RouteRecognizer` with segments, an incrementally built
NFA of `State`s, specificity scoring, path generation and the query-string
codec), together with theorems settling the frozen claims about it.

Strings of the JavaScript source are modelled as `List Char`; JavaScript
objects used as string-keyed dictionaries are modelled as association lists
with JavaScript's update-in-place/append-at-end assignment semantics; thrown
exceptions are modelled with `Except String`.  JavaScript numbers holding
specificity scores are modelled as exact `Nat`s (the scores are small digit
strings; double rounding is immaterial to every claim below).
-/

namespace RR

/-- `String.split`-on-one-character as JavaScript's `split` behaves:
`"".split(c)` is `[""]`, a trailing separator yields a trailing `""`. -/
def splitOnChar (sep : Char) : List Char → List (List Char)
  | [] => [[]]
  | c :: rest =>
    if c = sep then [] :: splitOnChar sep rest
    else
      match splitOnChar sep rest with
      | [] => [[c]]
      | h :: t => (c :: h) :: t

/-- First-occurrence split: `none` when the character is absent
(JavaScript `indexOf` returning `-1`), otherwise the text before the first
occurrence and the text after it. -/
def splitAtFirst (sep : Char) (cs : List Char) : Option (List Char × List Char) :=
  if cs.contains sep then
    some (cs.takeWhile (· ≠ sep), (cs.dropWhile (· ≠ sep)).tail)
  else none

/-- Hexadecimal digit value of a character (both cases), `none` otherwise. -/
def hexVal? (c : Char) : Option Nat :=
  if 48 ≤ c.toNat ∧ c.toNat ≤ 57 then some (c.toNat - 48)
  else if 65 ≤ c.toNat ∧ c.toNat ≤ 70 then some (c.toNat - 55)
  else if 97 ≤ c.toNat ∧ c.toNat ≤ 102 then some (c.toNat - 87)
  else none

/-- Upper-case hexadecimal digit for a value below 16 (as `encodeURIComponent`
emits). -/
def hexDigit (n : Nat) : Char :=
  if n < 10 then Char.ofNat (48 + n) else Char.ofNat (55 + n)

/-- UTF-8 byte sequence of a unicode scalar value, as JavaScript's
`encodeURIComponent` percent-encodes non-ASCII characters. -/
def utf8Bytes (n : Nat) : List Nat :=
  if n < 0x80 then [n]
  else if n < 0x800 then [0xC0 + n / 64, 0x80 + n % 64]
  else if n < 0x10000 then [0xE0 + n / 4096, 0x80 + (n / 64) % 64, 0x80 + n % 64]
  else [0xF0 + n / 262144, 0x80 + (n / 4096) % 64, 0x80 + (n / 64) % 64, 0x80 + n % 64]

/-- `%XX` escape for one byte. -/
def pctEncodeByte (b : Nat) : List Char :=
  ['%', hexDigit (b / 16), hexDigit (b % 16)]

/-- The characters `encodeURIComponent` leaves unescaped:
`A-Z a-z 0-9 - _ . ! ~ * ' ( )`. -/
def isUnreservedComponent (c : Char) : Bool :=
  (65 ≤ c.toNat && c.toNat ≤ 90) || (97 ≤ c.toNat && c.toNat ≤ 122) ||
  (48 ≤ c.toNat && c.toNat ≤ 57) ||
  c = '-' || c = '_' || c = '.' || c = '!' || c = '~' || c = '*' ||
  c.toNat = 39 || c = '(' || c = ')'

/-- JavaScript's `encodeURIComponent` on one character. -/
def encodeURIComponentChar (c : Char) : List Char :=
  if isUnreservedComponent c then [c] else (utf8Bytes c.toNat).flatMap pctEncodeByte

/-- JavaScript's `encodeURIComponent`. -/
def encodeURIComponentL (s : List Char) : List Char :=
  s.flatMap encodeURIComponentChar

/-- Token stream for percent-decoding: either a literal character or a byte
obtained from a `%XX` escape. -/
inductive PTok where
  | raw (c : Char)
  | byte (b : Nat)
deriving Repr, DecidableEq

/-- First pass of `decodeURIComponent`: turn `%XX` escapes into bytes,
fail (`URIError`) on a `%` not followed by two hexadecimal digits. -/
def pctTokens : List Char → Option (List PTok)
  | [] => some []
  | c :: rest =>
    if c = '%' then
      match rest with
      | c1 :: c2 :: rest2 =>
        match hexVal? c1, hexVal? c2 with
        | some h1, some h2 => (PTok.byte (16 * h1 + h2) :: ·) <$> pctTokens rest2
        | _, _ => none
      | _ => none
    else (PTok.raw c :: ·) <$> pctTokens rest

/-- Is `b` a UTF-8 continuation byte? -/
def isCont (b : Nat) : Bool := 0x80 ≤ b && b < 0xC0

mutual

/-- Second pass of `decodeURIComponent`: UTF-8-decode the byte tokens,
rejecting malformed, overlong and surrogate sequences as `decodeURIComponent`
throws `URIError` on them.  The continuation bytes of multi-byte sequences
are consumed by the three helpers below. -/
def utf8Decode : List PTok → Option (List Char)
  | [] => some []
  | .raw c :: rest => (c :: ·) <$> utf8Decode rest
  | .byte b1 :: rest =>
    if b1 < 0x80 then (Char.ofNat b1 :: ·) <$> utf8Decode rest
    else if b1 < 0xC0 then none
    else if b1 < 0xE0 then utf8Cont2 b1 rest
    else if b1 < 0xF0 then utf8Cont3 b1 rest
    else if b1 < 0xF8 then utf8Cont4 b1 rest
    else none

/-- Continuation of `utf8Decode` after a two-byte leading byte. -/
def utf8Cont2 (b1 : Nat) : List PTok → Option (List Char)
  | .byte b2 :: rest2 =>
    if isCont b2 then
      let n := (b1 - 0xC0) * 64 + (b2 - 0x80)
      if 0x80 ≤ n then (Char.ofNat n :: ·) <$> utf8Decode rest2 else none
    else none
  | _ => none

/-- Continuation of `utf8Decode` after a three-byte leading byte. -/
def utf8Cont3 (b1 : Nat) : List PTok → Option (List Char)
  | .byte b2 :: .byte b3 :: rest3 =>
    if isCont b2 && isCont b3 then
      let n := (b1 - 0xE0) * 4096 + (b2 - 0x80) * 64 + (b3 - 0x80)
      if 0x800 ≤ n ∧ ¬(0xD800 ≤ n ∧ n < 0xE000) then
        (Char.ofNat n :: ·) <$> utf8Decode rest3
      else none
    else none
  | _ => none

/-- Continuation of `utf8Decode` after a four-byte leading byte. -/
def utf8Cont4 (b1 : Nat) : List PTok → Option (List Char)
  | .byte b2 :: .byte b3 :: .byte b4 :: rest4 =>
    if isCont b2 && isCont b3 && isCont b4 then
      let n := (b1 - 0xF0) * 262144 + (b2 - 0x80) * 4096 + (b3 - 0x80) * 64 + (b4 - 0x80)
      if 0x10000 ≤ n ∧ n ≤ 0x10FFFF then
        (Char.ofNat n :: ·) <$> utf8Decode rest4
      else none
    else none
  | _ => none

end

/-- JavaScript's `decodeURIComponent`; `none` models a thrown `URIError`. -/
def decodeURIComponentL (s : List Char) : Option (List Char) :=
  pctTokens s >>= utf8Decode

/-- Modelled from the spec: the injected path-normalization policy
(`normalizeSegment`/`normalizePath` of the `Normalizer` module imported at the
top of src/lib/router.js but not present under src/).  Per §1/§4.3 it applies
"percent-decoding ... rules" to "produce a decoded working path".  We model it
as a character scan that decodes each `%XX` escape standing for an ASCII byte
other than `/` (0x2F) and `%` (0x25) — those two must stay encoded for the
path to keep its segment structure — and leaves everything else (including
ill-formed escapes and non-ASCII escapes) verbatim.  Because the scan passes
`/` through unchanged, applying it to a whole path or segment-by-segment is
the same, so it serves as both `normalizeSegment` and `normalizePath`. -/
def nsScan : List Char → List Char
  | [] => []
  | c :: rest =>
    if c = '%' then
      let tailScan := nsScan rest
      match rest with
      | c1 :: c2 :: rest2 =>
        match hexVal? c1, hexVal? c2 with
        | some h1, some h2 =>
          let b := 16 * h1 + h2
          if b < 0x80 ∧ b ≠ 0x2F ∧ b ≠ 0x25 then Char.ofNat b :: nsScan rest2
          else '%' :: c1 :: c2 :: nsScan rest2
        | _, _ => '%' :: tailScan
      | _ => '%' :: tailScan
    else c :: nsScan rest

/-- `normalizeSegment` of the injected policy (see `nsScan`). -/
def normalizeSegment (s : List Char) : List Char := nsScan s

/-- `normalizePath` of the injected policy (see `nsScan`). -/
def normalizePath (s : List Char) : List Char := nsScan s

/-- The byte escapes `decodeURI` leaves encoded: the URI-reserved characters
`# $ & + , / : ; = ? @` (JavaScript's `decodeURI` does not decode these). -/
def isReservedURIByte (b : Nat) : Bool :=
  b = 35 || b = 36 || b = 38 || b = 43 || b = 44 || b = 47 ||
  b = 58 || b = 59 || b = 61 || b = 63 || b = 64

/-- Token pass for `decodeURI`: like `pctTokens` but escapes of URI-reserved
bytes stay verbatim text. -/
def pctTokensURI : List Char → Option (List PTok)
  | [] => some []
  | c :: rest =>
    if c = '%' then
      match rest with
      | c1 :: c2 :: rest2 =>
        match hexVal? c1, hexVal? c2 with
        | some h1, some h2 =>
          let b := 16 * h1 + h2
          if isReservedURIByte b then
            (fun t => PTok.raw '%' :: PTok.raw c1 :: PTok.raw c2 :: t) <$> pctTokensURI rest2
          else (PTok.byte b :: ·) <$> pctTokensURI rest2
        | _, _ => none
      | _ => none
    else (PTok.raw c :: ·) <$> pctTokensURI rest

/-- JavaScript's `decodeURI`; `none` models a thrown `URIError`.  (Only
reachable in the engine when `ENCODE_AND_DECODE_PATH_SEGMENTS` is false.) -/
def decodeURIL (s : List Char) : Option (List Char) :=
  pctTokensURI s >>= utf8Decode

/-! ## Segments and the pattern parser (`StaticSegment` … `EpsilonSegment`, `parse`) -/

/-- The closed segment variant: `StaticSegment` (storing the normalized text),
`DynamicSegment` (storing the normalized parameter name), `StarSegment`
(storing the raw name) and `EpsilonSegment`. -/
inductive Segment where
  | static (s : List Char)
  | dynamic (n : List Char)
  | star (n : List Char)
  | epsilon
deriving Repr, DecidableEq

/-- Does the piece match `/^:([^\/]+)$/`? -/
def isDynPiece (p : List Char) : Bool :=
  p.head? = some ':' && !p.tail.isEmpty && !p.tail.contains '/'

/-- Does the piece match `/^\*([^\/]+)$/`? -/
def isStarPiece (p : List Char) : Bool :=
  p.head? = some '*' && !p.tail.isEmpty && !p.tail.contains '/'

/-- The `Segment` one piece of a split route maps to, in the source's test
order: dynamic, star, empty, static.  `DynamicSegment` and `StaticSegment`
normalize their stored text in their constructors. -/
def pieceSegment (p : List Char) : Segment :=
  if isDynPiece p then .dynamic (normalizeSegment p.tail)
  else if isStarPiece p then .star p.tail
  else if p.isEmpty then .epsilon
  else .static (normalizeSegment p)

/-- The specificity digit `parse` appends for one piece:
Dynamic `'3'`, Star `'1'`, Epsilon `'2'`, Static `'4'`. -/
def pieceDigit (p : List Char) : Char :=
  if isDynPiece p then '3'
  else if isStarPiece p then '1'
  else if p.isEmpty then '2'
  else '4'

/-- The (raw) parameter name and decode flag `parse` pushes for one piece:
dynamic pieces decode, star pieces do not, others contribute nothing. -/
def pieceName? (p : List Char) : Option (List Char × Bool) :=
  if isDynPiece p then some (p.tail, true)
  else if isStarPiece p then some (p.tail, false)
  else none

/-- JavaScript's unary `+` on the accumulated digit string (`specificity.val =
+specificity.val`): the digit characters read as a decimal number. -/
def jsDigitsToNat (ds : List Char) : Nat :=
  ds.foldl (fun a c => 10 * a + (c.toNat - 48)) 0

/-- Result of `parse(route, names, specificity, shouldDecodes)`: the segment
list, the appended names and decode flags, and the specificity digit string
(the source accumulates all four in one loop over the split pieces). -/
structure ParsedRoute where
  segments : List Segment
  names : List (List Char)
  shouldDecodes : List Bool
  specificityDigits : List Char
deriving Repr, DecidableEq

/-- `parse`: strip one leading `/`, split on `/`, classify each piece. -/
def parseRoute (route : List Char) : ParsedRoute :=
  let r := if route.head? = some '/' then route.tail else route
  let pieces := splitOnChar '/' r
  { segments := pieces.map pieceSegment
    names := (pieces.filterMap pieceName?).map Prod.fst
    shouldDecodes := (pieces.filterMap pieceName?).map Prod.snd
    specificityDigits := pieces.map pieceDigit }

/-- The specificity number `parse` leaves in `specificity.val` for a route. -/
def routeSpecVal (route : List Char) : Nat :=
  jsDigitsToNat (parseRoute route).specificityDigits

/-! ## The automaton (`State`, `get`/`put`/`match`) -/

/-- A character specification: an allow-list (`validChars`), a deny-list
(`invalidChars`) — `none` models the JavaScript `undefined` — and the
`repeat` flag (`rpt` here; `repeat` is a Lean keyword). -/
structure CharSpec where
  validChars : Option (List Char)
  invalidChars : Option (List Char)
  rpt : Bool
deriving Repr, DecidableEq

/-- `isEqualCharSpec`: compares only `validChars` and `invalidChars`. -/
def isEqualCharSpec (a b : CharSpec) : Bool :=
  a.validChars == b.validChars && a.invalidChars == b.invalidChars

/-- One `Handler` entry stored on an accepting state: the opaque handler value
(modelled as a `Nat`), the parameter names and their decode flags. -/
structure Handler where
  handler : Nat
  names : List (List Char)
  shouldDecodes : List Bool
deriving Repr, DecidableEq

/-- The data `add` writes on the batch's final state: `handlers`, the compiled
`regex` — represented by the ordered non-Epsilon segments whose fragments the
source concatenates into it; `[]` encodes the `"^/$"` regex of an all-Epsilon
batch — and `specificity.val` (`none` when `routes` was empty and `parse`
never ran, leaving `{}`). -/
structure Accept where
  handlers : List Handler
  regexSegs : List Segment
  specificity : Option Nat
deriving Repr, DecidableEq

/-- A `State` of the automaton.  The source's graph is a trie whose only
cycles are the single-node self-loops `put` installs for `repeat` specs, so it
is modelled as a tree: the self-loop child (always `nextStates[0]` of a
`repeat` state, pushed at creation) is implicit in the `rpt` flag of
`charSpec` and re-materialised by `stateMatch`/`insertPath`. -/
inductive RState where
  | mk (charSpec : CharSpec) (accept : Option Accept) (children : List RState)

/-- The state's `charSpec`. -/
def RState.charSpec : RState → CharSpec
  | .mk c _ _ => c

/-- The accepting data, when this state is accepting. -/
def RState.accept : RState → Option Accept
  | .mk _ a _ => a

/-- The explicit (non-self) `nextStates`, in insertion order. -/
def RState.children : RState → List RState
  | .mk _ _ ch => ch

instance : Inhabited RState := ⟨.mk ⟨none, none, false⟩ none []⟩

/-- A fresh `new State(charSpec)`. -/
def freshState (spec : CharSpec) : RState := .mk spec none []

/-- The root `new State()` (its `charSpec` is `undefined`; it is never
matched against, so the all-`none` spec is faithful). -/
def rootStateInit : RState := .mk ⟨none, none, false⟩ none []

/-- The `{ validChars: "/" }` spec `add` puts before every segment. -/
def slashSpec : CharSpec := ⟨some ['/'], none, false⟩

/-- The character specs a segment's `eachChar` feeds into `put`, in order:
one single-character allow spec per static character; one self-looping
deny-`/` spec for a dynamic segment; one self-looping deny-nothing spec for a
star segment; nothing for epsilon. -/
def segmentSpecs : Segment → List CharSpec
  | .static s => s.map (fun c => ⟨some [c], none, false⟩)
  | .dynamic _ => [⟨none, some ['/'], true⟩]
  | .star _ => [⟨none, some [], true⟩]
  | .epsilon => []

/-- Is the segment a non-Epsilon segment (`!(segment instanceof
EpsilonSegment)`)? -/
def nonEps (s : Segment) : Bool := s ≠ Segment.epsilon

/-- The successive `put` arguments of one `add` batch whose concatenated
parsed segments are `segs`: a `/` spec then the segment's specs, for each
non-Epsilon segment. -/
def routeSpecsList (segs : List Segment) : List CharSpec :=
  (segs.filter nonEps).flatMap (fun s => slashSpec :: segmentSpecs s)

/-- The `put` walk of `add`, ending by overwriting the final state's
accepting data.  `get` scans `nextStates` in order; for a `repeat` state the
self-loop child sits at index 0, so an equal spec matches the state itself
first; otherwise the first equal explicit child is reused, else a fresh state
is appended. -/
def insertPath : List CharSpec → RState → Accept → RState
  | [], .mk cs _ ch, a => .mk cs (some a) ch
  | spec :: rest, .mk cs acc ch, a =>
    if cs.rpt && isEqualCharSpec cs spec then
      insertPath rest (.mk cs acc ch) a
    else
      match ch.findIdx? (fun c => isEqualCharSpec c.charSpec spec) with
      | some i => .mk cs acc (ch.set i (insertPath rest (ch.getD i default) a))
      | none => .mk cs acc (ch ++ [insertPath rest (freshState spec) a])

/-- Does a spec accept a character: member of the allow-list if present, else
absent from the deny-list if present, else no match. -/
def specMatchesChar (spec : CharSpec) (c : Char) : Bool :=
  match spec.validChars with
  | some chars => chars.contains c
  | none =>
    match spec.invalidChars with
    | some chars => !chars.contains c
    | none => false

/-- `State.match`: the `nextStates` whose spec accepts the character — the
implicit self-loop (tested first, as `nextStates[0]`) then the explicit
children in order. -/
def stateMatch (s : RState) (c : Char) : List RState :=
  (if s.charSpec.rpt && specMatchesChar s.charSpec c then [s] else []) ++
    s.children.filter (fun t => specMatchesChar t.charSpec c)

/-- `recognizeChar`: advance a frontier by one character. -/
def recognizeChar (states : List RState) (c : Char) : List RState :=
  states.flatMap (fun s => stateMatch s c)

/-- The character loop of `recognize` (it breaks on an empty frontier, which
is equivalent to continuing since the empty frontier is absorbing). -/
def walkStates (states : List RState) : List Char → List RState
  | [] => states
  | c :: cs =>
    let ns := recognizeChar states c
    if ns.isEmpty then [] else walkStates ns cs

/-- `specificity.val` of a state, when it is an accepting state carrying
one. -/
def stateSpecVal (s : RState) : Option Nat :=
  match s.accept with
  | some a => a.specificity
  | none => none

/-- The comparator of `sortSolutions`: `b.specificity.val -
a.specificity.val`; a missing `val` (empty batch) makes the subtraction `NaN`,
which `Array.prototype.sort` treats as `0`. -/
def solCmp (a b : RState) : Int :=
  match stateSpecVal a, stateSpecVal b with
  | some x, some y => (y : Int) - (x : Int)
  | _, _ => 0

/-- Stable insertion of one element into an already-sorted run, per the
comparator contract (`solCmp x y < 0` places `x` before `y`). -/
def insertSol (x : RState) : List RState → List RState
  | [] => [x]
  | y :: ys => if solCmp x y < 0 then x :: y :: ys else y :: insertSol x ys

/-- `sortSolutions`: a stable comparison sort by the comparator, as
`Array.prototype.sort` (stable per ES2019) — modelled as insertion sort. -/
def sortSolutions (l : List RState) : List RState :=
  l.foldl (fun acc x => insertSol x acc) []

/-! ## JavaScript string-keyed objects -/

/-- Property read on a string-keyed object. -/
def assocLookup (m : List (List Char × α)) (k : List Char) : Option α :=
  match m with
  | [] => none
  | (k2, v) :: rest => if k2 = k then some v else assocLookup rest k

/-- Property write on a string-keyed object: an existing key keeps its
position, a new key is appended (JavaScript string-key insertion order). -/
def assocUpsert (m : List (List Char × α)) (k : List Char) (v : α) : List (List Char × α) :=
  match m with
  | [] => [(k, v)]
  | (k2, v2) :: rest => if k2 = k then (k2, v) :: rest else (k2, v2) :: assocUpsert rest k v

/-- The own property names of `Object.prototype` (the ES standard set),
inherited by every `{}` literal the source uses (`this.names`, the query and
extracted-parameter objects).  Reading any of these keys on an otherwise
empty object yields a truthy non-string value (a built-in function, or for
`__proto__` the prototype object itself) instead of `undefined`. -/
def objectProtoKey (k : List Char) : Bool :=
  k = "constructor".data || k = "hasOwnProperty".data || k = "isPrototypeOf".data ||
  k = "propertyIsEnumerable".data || k = "toLocaleString".data || k = "toString".data ||
  k = "valueOf".data || k = "__proto__".data || k = "__defineGetter__".data ||
  k = "__defineSetter__".data || k = "__lookupGetter__".data || k = "__lookupSetter__".data

/-- The assignment `obj[k] = v` of a *string* onto a `{}`-backed object: the
inherited `__proto__` accessor silently drops non-object values, so the
write is a no-op; any other key creates or updates an own data property,
shadowing an inherited one. -/
def jsSetStr (m : List (List Char × List Char)) (k : List Char) (v : List Char) :
    List (List Char × List Char) :=
  if k = "__proto__".data then m else assocUpsert m k v

/-! ## The query-string codec -/

/-- A value in a parsed query-params object: a string or an accumulating
array. -/
inductive QueryVal where
  | str (s : List Char)
  | arr (elems : List (List Char))
deriving Repr, DecidableEq

/-- The object `parseQueryString` builds. -/
abbrev QueryParams := List (List Char × QueryVal)

/-- `decodeQueryParamPart`: rewrite `+` to `%20`, `decodeURIComponent`,
and coerce a decode failure to the empty string. -/
def decodeQueryParamPart (part : List Char) : List Char :=
  let part := part.flatMap (fun c => if c = '+' then ['%', '2', '0'] else [c])
  (decodeURIComponentL part).getD []

/-- JavaScript truthiness of a property that may hold a string or an array:
absent and the empty string are falsy, arrays (even empty) are truthy. -/
def qpTruthy : Option QueryVal → Bool
  | none => false
  | some (.str s) => !s.isEmpty
  | some (.arr _) => true

/-- JavaScript truthiness of the read `queryParams[key]` on the `{}`-backed
query object: an own value per `qpTruthy`; an absent key is truthy exactly
when it names an inherited `Object.prototype` property. -/
def qpReadTruthy (qp : QueryParams) (key : List Char) : Bool :=
  match assocLookup qp key with
  | some v => qpTruthy (some v)
  | none => objectProtoKey key

/-- One iteration of the `parseQueryString` loop over `pairs`.  The source
splits the pair on every `=` and uses `pair[1]` as the value; `[]`-array keys
need a decoded length above 2.  The query object is a `{}` literal, so the
truthiness test `!queryParams[key]` sees the inherited `Object.prototype`
properties: for such a key with no own entry the sequence initialisation is
skipped and `queryParams[key].push` throws a `TypeError` (the inherited
value has no `push` method), just as it does on an own truthy non-sequence
value; and the scalar assignment under `__proto__` is silently dropped by
the inherited accessor (`jsSetStr`). -/
def parseQueryStep (qp : QueryParams) (pair : List Char) : Except String QueryParams :=
  let parts := splitOnChar '=' pair
  let key0 := decodeQueryParamPart (parts.headD [])
  if parts.length = 1 then
    .ok (if key0 = "__proto__".data then qp
      else assocUpsert qp key0 (.str ['t', 'r', 'u', 'e']))
  else
    let isArr := key0.length > 2 && key0.drop (key0.length - 2) = ['[', ']']
    let key := if isArr then key0.take (key0.length - 2) else key0
    let qp := if isArr && !qpReadTruthy qp key then assocUpsert qp key (.arr []) else qp
    let value :=
      match parts.get? 1 with
      | some v => if v.isEmpty then [] else decodeQueryParamPart v
      | none => []
    if isArr then
      match assocLookup qp key with
      | some (.arr elems) => .ok (assocUpsert qp key (.arr (elems ++ [value])))
      | _ => .error "TypeError: queryParams[key].push is not a function"
    else
      .ok (if key = "__proto__".data then qp else assocUpsert qp key (.str value))

/-- `parseQueryString`: split on `&` and run the pair loop. -/
def parseQueryStringL (queryString : List Char) : Except String QueryParams :=
  (splitOnChar '&' queryString).foldlM parseQueryStep []

/-- A value in the mapping handed to `generateQueryString`: `null` (or
`undefined`), a string, or an array of strings. -/
inductive QueryGenVal where
  | null
  | str (s : List Char)
  | arr (elems : List (List Char))
deriving Repr, DecidableEq

/-- The mapping handed to `generateQueryString`. -/
abbrev QueryGenMap := List (List Char × QueryGenVal)

/-- UTF-16 code units of a character (JavaScript strings compare by code
unit). -/
def utf16Units (c : Char) : List Nat :=
  if c.toNat < 0x10000 then [c.toNat]
  else [0xD800 + (c.toNat - 0x10000) / 1024, 0xDC00 + (c.toNat - 0x10000) % 1024]

/-- Lexicographic order on code-unit lists. -/
def unitsLt : List Nat → List Nat → Bool
  | [], [] => false
  | [], _ :: _ => true
  | _ :: _, [] => false
  | x :: xs, y :: ys => if x < y then true else if y < x then false else unitsLt xs ys

/-- JavaScript `<` on strings: lexicographic by UTF-16 code unit, as the
default `Array.prototype.sort` comparison of `keys.sort()` behaves on
string keys. -/
def jsStrLt (a b : List Char) : Bool :=
  unitsLt (a.flatMap utf16Units) (b.flatMap utf16Units)

/-- Stable ascending insertion for `keys.sort()`. -/
def insertKey (x : List Char) : List (List Char) → List (List Char)
  | [] => [x]
  | y :: ys => if jsStrLt x y then x :: y :: ys else y :: insertKey x ys

/-- `keys.sort()`: stable sort in JavaScript's default string order. -/
def sortKeys (l : List (List Char)) : List (List Char) :=
  l.foldl (fun acc x => insertKey x acc) []

/-- `generateQueryString`: sorted keys; the pair loop — a `null`/`undefined`
value is skipped (`value == null`), a scalar pushes `encodeURIComponent(key)
+ "=" + encodeURIComponent(value)`, an array pushes one `key + "[]" + "=" +
encodeURIComponent(element)` per element (the source does not encode the key
in the array case); then `"?" + pairs.join("&")` when any pair was pushed,
`""` otherwise.  (The `handlers` argument of the source is unused there and
omitted.) -/
def generateQueryStringL (params : QueryGenMap) : List Char :=
  let keys := sortKeys (params.map Prod.fst)
  let pairs := keys.foldl
    (fun pairs key =>
      match assocLookup params key with
      | none => pairs
      | some .null => pairs
      | some (.str value) =>
        pairs ++ [encodeURIComponentL key ++ '=' :: encodeURIComponentL value]
      | some (.arr value) =>
        pairs ++ value.map (fun e => key ++ '[' :: ']' :: '=' :: encodeURIComponentL e))
    []
  if pairs.isEmpty then [] else '?' :: (List.intercalate ['&'] pairs)

/-! ## The router: `add`, `handlersFor`, `hasRoute`, `generate` -/

/-- The engine-wide `RouteRecognizer.ENCODE_AND_DECODE_PATH_SEGMENTS` flag,
`true` by default (the source initialises it to `true`; it is modelled at its
default). -/
def ENCODE_AND_DECODE_PATH_SEGMENTS : Bool := true

/-- One element of the `routes` batch passed to `add`: a pattern and an
opaque handler value (modelled as a `Nat`). -/
structure RouteDef where
  path : List Char
  handler : Nat
deriving Repr, DecidableEq

/-- An entry of `this.names`. -/
structure NamedRoute where
  segments : List Segment
  handlers : List Handler
deriving Repr, DecidableEq

/-- The engine: the automaton root and the named-route registry. -/
structure Router where
  rootState : RState
  names : List (List Char × NamedRoute)

/-- `new RouteRecognizer()`. -/
def emptyRouter : Router := ⟨rootStateInit, []⟩

/-- The `Handler` record `add` builds for one route of a batch. -/
def routeHandler (r : RouteDef) : Handler :=
  let p := parseRoute r.path
  { handler := r.handler, names := p.names, shouldDecodes := p.shouldDecodes }

/-- `allSegments`: the concatenated parsed segments of the whole batch. -/
def batchSegments (routes : List RouteDef) : List Segment :=
  routes.flatMap (fun r => (parseRoute r.path).segments)

/-- The accepting data `add` writes on the batch's final state.  The shared
`specificity` object is re-filled by each call to `parse`, so the stored value
is the last route's (and absent for an empty batch). -/
def batchAccept (routes : List RouteDef) : Accept :=
  { handlers := routes.map routeHandler
    regexSegs := (batchSegments routes).filter nonEps
    specificity := (routes.map (fun r => routeSpecVal r.path)).getLast? }

/-- The `put` arguments of the whole batch; `isEmpty` batches (no non-Epsilon
segment) still advance one literal `/`. -/
def batchSpecs (routes : List RouteDef) : List CharSpec :=
  let specs := routeSpecsList (batchSegments routes)
  if specs.isEmpty then [slashSpec] else specs

/-- `add(routes, options)`.  A falsy `options.as` (absent or the empty
string) skips name registration.  (In the source, registering under the name
`__proto__` would replace the prototype of `this.names` rather than create
an own entry; the model keeps it as an entry, which agrees with the source
on subsequent reads of that same name but not on the incidental inheritance
the replacement creates for other lookups — the round-trip claim therefore
excludes `Object.prototype` property names as registration names.) -/
def Router.add (r : Router) (routes : List RouteDef) (asName : Option (List Char)) : Router :=
  { rootState := insertPath (batchSpecs routes) r.rootState (batchAccept routes)
    names :=
      match asName with
      | some n =>
        if n.isEmpty then r.names
        else assocUpsert r.names n ⟨batchSegments routes, routes.map routeHandler⟩
      | none => r.names }

/-- The element-copy loop of `handlersFor` (`result[i] = route.handlers[i]`). -/
def copyList : List α → List α
  | [] => []
  | x :: xs => x :: copyList xs

/-- `handlersFor(name)`: an own entry is copied element-by-element into a
fresh array.  A name of an inherited `Object.prototype` property passes the
`!route` guard (the inherited value is truthy) and `route.handlers.length`
then throws a `TypeError` (`.handlers` of the inherited value is
`undefined`); any other unregistered name throws
`"There is no route named " + name`. -/
def Router.handlersFor (r : Router) (name : List Char) : Except String (List Handler) :=
  match assocLookup r.names name with
  | none =>
    if objectProtoKey name then .error "TypeError: cannot read properties of undefined"
    else .error ("There is no route named " ++ String.mk name)
  | some route => .ok (copyList route.handlers)

/-- `hasRoute(name)`: `!!this.names[name]` — truthy for an own entry, and
also for the name of an inherited `Object.prototype` property of the `{}`
literal backing `this.names`. -/
def Router.hasRoute (r : Router) (name : List Char) : Bool :=
  (assocLookup r.names name).isSome || objectProtoKey name

/-- `handlersFor` in state-passing form: the second component is the engine
state after the call.  The source reads `this.names` and writes no field, so
the post-state is the input state. -/
def Router.handlersForT (r : Router) (name : List Char) :
    Except String (List Handler) × Router :=
  (r.handlersFor name, r)

/-- `params[segment.name]`; a missing property is `undefined`, which the
string operations of `generate` coerce to `"undefined"`. -/
def lookupParam (params : List (List Char × List Char)) (n : List Char) : List Char :=
  (assocLookup params n).getD "undefined".data

/-- `segment.generate(params)`: static text verbatim; a dynamic value
percent-encoded when `ENCODE_AND_DECODE_PATH_SEGMENTS` is set; a star value
raw; nothing for epsilon. -/
def segmentGenerate (seg : Segment) (params : List (List Char × List Char)) : List Char :=
  match seg with
  | .static s => s
  | .dynamic n =>
    if ENCODE_AND_DECODE_PATH_SEGMENTS then encodeURIComponentL (lookupParam params n)
    else lookupParam params n
  | .star n => lookupParam params n
  | .epsilon => []

/-- `generate(name, params)`: throw the `NoSuchRoute` error on an unknown
name — except that a name of an inherited `Object.prototype` property passes
the `!route` guard and `route.segments.length` throws a `TypeError` instead;
otherwise replay the stored segments, a `/` before each non-Epsilon segment;
guarantee a leading `/`; append `generateQueryString` output when
`params.queryParams` is present (modelled as the separate `queryParams`
argument). -/
def Router.generate (r : Router) (name : List Char)
    (params : List (List Char × List Char)) (queryParams : Option QueryGenMap) :
    Except String (List Char) :=
  match assocLookup r.names name with
  | none =>
    if objectProtoKey name then .error "TypeError: cannot read properties of undefined"
    else .error ("There is no route named " ++ String.mk name)
  | some route =>
    let output := route.segments.foldl
      (fun out seg =>
        if seg = Segment.epsilon then out else out ++ '/' :: segmentGenerate seg params) []
    let output := if output.head? = some '/' then output else '/' :: output
    match queryParams with
    | some qp => .ok (output ++ generateQueryStringL qp)
    | none => .ok output

/-- `generate` in state-passing form: the source writes no engine field, so
the post-state is the input state. -/
def Router.generateT (r : Router) (name : List Char)
    (params : List (List Char × List Char)) (queryParams : Option QueryGenMap) :
    Except String (List Char) × Router :=
  (r.generate name params queryParams, r)

/-! ## The compiled extraction regex and `findHandler` -/

/-- Backtracking over candidate capture lengths `k, k-1, …, 1` (greedy:
longest first) for one one-or-more capture group: `f` matches the remainder
of the regex against the characters left after the capture. -/
def tryCaps (f : List Char → Option (List (List Char))) (cs2 : List Char) :
    Nat → Option (List (List Char))
  | 0 => none
  | k + 1 =>
    match f (cs2.drop (k + 1)) with
    | some caps => some (cs2.take (k + 1) :: caps)
    | none => tryCaps f cs2 k

/-- Matcher for the compiled extraction regex `"^" + ("/" + fragment)* + "$"`
against a path, returning the ordered capture list on success.  Per segment
the source concatenates a literal `/` and the segment's `regex()` fragment:
static — the regex-escaped literal, hence an exact character match; dynamic —
`([^/]+)`; star — `(.+)`; epsilon — `""` (and no `/`, epsilon segments are
skipped before the `/` is appended).  Greedy one-or-more groups are modelled
as a backtracking engine evaluates them: longest candidate first (`tryCaps`);
the dynamic case caps the candidate length at the run of non-`/`
characters. -/
def fragMatch : List Segment → List Char → Option (List (List Char))
  | [], cs => if cs.isEmpty then some [] else none
  | .epsilon :: rest, cs => fragMatch rest cs
  | .static s :: rest, cs =>
    if ('/' :: s).isPrefixOf cs then fragMatch rest (cs.drop (s.length + 1)) else none
  | .dynamic _ :: rest, cs =>
    match cs with
    | '/' :: cs2 => tryCaps (fragMatch rest) cs2 ((cs2.takeWhile (· ≠ '/')).length)
    | _ => none
  | .star _ :: rest, cs =>
    match cs with
    | '/' :: cs2 => tryCaps (fragMatch rest) cs2 cs2.length
    | _ => none

/-- `originalPath.match(state.regex)` restricted to the capture groups
(`captures[1..]`): the stored regex is the fragment concatenation, except an
all-Epsilon batch stores `"^/$"`, which matches exactly `"/"`. -/
def regexMatchSegs (segs : List Segment) (cs : List Char) : Option (List (List Char)) :=
  if segs.isEmpty then (if cs = ['/'] then some [] else none) else fragMatch segs cs

/-- `state.regex.source.slice(-5) === "(.+)$"`: the regex source ends in a
star fragment exactly when the last non-Epsilon segment is a star (a static's
escaped literal cannot end in the unescaped `"(.+)"`, a dynamic fragment ends
in `"[^/]+)"`, and the all-Epsilon regex is `"^/$"`). -/
def regexEndsStar (segs : List Segment) : Bool :=
  match segs.getLast? with
  | some (.star _) => true
  | _ => false

/-- One entry of a `RecognizeResults`: handler, extracted params,
`isDynamic = !!names.length`. -/
structure RResult where
  handler : Nat
  params : List (List Char × List Char)
  isDynamic : Bool
deriving Repr, DecidableEq

/-- The `RecognizeResults` array-like: entries plus the query params. -/
structure RecognizeResults where
  results : List RResult
  queryParams : QueryParams
deriving Repr, DecidableEq

/-- The inner loop of `findHandler` for one handler: assign
`captures[currentCapture++]` to each name in order, decoding per flag when
`ENCODE_AND_DECODE_PATH_SEGMENTS` is set.  A `none` capture list models a
failed (`null`) match: indexing it throws a `TypeError`.  An out-of-range
capture index yields `undefined`, coerced to `"undefined"` by the decode path
(such an index cannot occur for states written by `add`, which install
`regex` and `handlers` together).  A decode failure throws a `URIError`.
The params object is a `{}` literal, so the write under the name `__proto__`
is silently dropped by the inherited accessor (`jsSetStr`). -/
def buildParams (groups : Option (List (List Char))) :
    List (List Char) → List Bool → Nat → List (List Char × List Char) →
    Except String (Nat × List (List Char × List Char))
  | [], _, idx, params => .ok (idx, params)
  | name :: ns, flags, idx, params =>
    match groups with
    | none => .error "TypeError: cannot read properties of null"
    | some gs =>
      let capture := (gs.get? idx).getD "undefined".data
      let shouldDecode := flags.headD false
      if ENCODE_AND_DECODE_PATH_SEGMENTS && shouldDecode then
        match decodeURIComponentL capture with
        | some v => buildParams groups ns flags.tail (idx + 1) (jsSetStr params name v)
        | none => .error "URIError: URI malformed"
      else buildParams groups ns flags.tail (idx + 1) (jsSetStr params name capture)

/-- The handler loop of `findHandler`, abstracted over the computed
`captures` value: thread `currentCapture` through the handlers in order,
collecting one result entry per handler. -/
def findHandlerLoop (captures : Option (List (List Char))) :
    List Handler → Nat → List RResult → Except String (List RResult)
  | [], _, acc => .ok acc
  | h :: hs, idx, acc =>
    match buildParams captures h.names h.shouldDecodes idx [] with
    | .error e => .error e
    | .ok (idx2, params) =>
      findHandlerLoop captures hs idx2 (acc ++ [⟨h.handler, params, !h.names.isEmpty⟩])

/-- The body of `findHandler` after the regex match. -/
def findHandlerWith (captures : Option (List (List Char))) (handlers : List Handler)
    (queryParams : QueryParams) : Except String RecognizeResults :=
  match findHandlerLoop captures handlers 0 [] with
  | .error e => .error e
  | .ok results => .ok ⟨results, queryParams⟩

/-- `findHandler(state, originalPath, queryParams)`: match the extraction
regex against the (undecoded) path and distribute the captures over the
state's handlers in order. -/
def findHandler (acc : Accept) (originalPath : List Char) (queryParams : QueryParams) :
    Except String RecognizeResults :=
  findHandlerWith (regexMatchSegs acc.regexSegs originalPath) acc.handlers queryParams

/-! ## `recognize` -/

/-- `if (path.charAt(0) !== "/") path = "/" + path`. -/
def ensureLeadingSlash (p : List Char) : List Char :=
  if p.head? = some '/' then p else '/' :: p

/-- The path preprocessing of `recognize` up to the automaton walk: the
working (normalized) path, the undecoded extraction path, whether a trailing
slash was dropped, and the parsed query params. -/
structure PreparedPath where
  workingPath : List Char
  originalPath : List Char
  slashDropped : Bool
  queryParams : QueryParams
deriving Repr, DecidableEq

/-- Step 4 of `recognize`: drop a trailing `/` from a working path longer
than one character.  The drop truncates `originalPath` at the *normalized*
path's length minus one, exactly as the source's
`originalPath.substr(0, pathLen - 1)` does. -/
def recognizePrepSlash (path4 original4 : List Char) (queryParams : QueryParams) :
    Except String PreparedPath :=
  if path4.length > 1 ∧ path4.getLast? = some '/' then
    .ok ⟨path4.take (path4.length - 1), original4.take (path4.length - 1), true, queryParams⟩
  else
    .ok ⟨path4, original4, false, queryParams⟩

/-- Step 3 of `recognize`: ensure a leading `/` and normalize — the flag is
set, so `normalizePath` on the working copy while `originalPath` stays
undecoded; with the flag off both copies go through `decodeURI`. -/
def recognizePrepAfter (path2 : List Char) (queryParams : QueryParams) :
    Except String PreparedPath :=
  if ENCODE_AND_DECODE_PATH_SEGMENTS then
    recognizePrepSlash (normalizePath (ensureLeadingSlash path2))
      (ensureLeadingSlash path2) queryParams
  else
    match decodeURIL (ensureLeadingSlash path2), decodeURIL (ensureLeadingSlash path2) with
    | some p, some o => recognizePrepSlash p o queryParams
    | _, _ => .error "URIError: URI malformed"

/-- Steps 1–4 of `recognize`: strip a `#` fragment; split off and parse a
`?` query; then `recognizePrepAfter`. -/
def recognizePrep (path0 : List Char) : Except String PreparedPath :=
  match splitAtFirst '?' (path0.takeWhile (· ≠ '#')) with
  | some (pre, post) =>
    match parseQueryStringL post with
    | .error e => .error e
    | .ok qp => recognizePrepAfter pre qp
  | none => recognizePrepAfter (path0.takeWhile (· ≠ '#')) []

/-- Steps 5–6 of `recognize`: walk the automaton from the root, keep the
accepting states of the final frontier, sort by specificity. -/
def recognizeSolutions (r : Router) (workingPath : List Char) : List RState :=
  sortSolutions ((walkStates [r.rootState] workingPath).filter (fun s => s.accept.isSome))

/-- The state `recognize` settles on, together with the path used for
extraction (trailing `/` restored when it was dropped and the regex ends in a
star capture) and the query params; `none` when no accepting state was
reached. -/
def Router.chosenState (r : Router) (path : List Char) :
    Except String (Option (Accept × List Char × QueryParams)) :=
  match recognizePrep path with
  | .error e => .error e
  | .ok prep =>
    match (recognizeSolutions r prep.workingPath).head? with
    | some st =>
      match st.accept with
      | some acc =>
        .ok (some (acc,
          (if prep.slashDropped && regexEndsStar acc.regexSegs then prep.originalPath ++ ['/']
            else prep.originalPath),
          prep.queryParams))
      | none => .ok none
    | none => .ok none

/-- `recognize(path)`: the chosen state's handlers applied to the extraction
path, or no result. -/
def Router.recognize (r : Router) (path : List Char) :
    Except String (Option RecognizeResults) :=
  match r.chosenState path with
  | .error e => .error e
  | .ok (some (acc, originalPath, queryParams)) =>
    match findHandler acc originalPath queryParams with
    | .error e => .error e
    | .ok res => .ok (some res)
  | .ok none => .ok none

/-! ## Specification-side definitions

The functions below follow the wording of spec sentences (amended where a
counterexample forces it), for comparison against the source-translated
definitions above. -/

/-- One query pair per the amended description of query parsing: the pair is
split at its *first* `=`; the value is the decoded text up to the next `=`
(text after a second `=` is discarded; an empty component stays empty
undecoded); no `=` at all yields the literal string `"true"`; a decoded key
longer than two characters ending in `[]` accumulates same-key occurrences
(in encounter order) into a sequence under the stripped key, replacing an
own falsy (empty-string) previous entry and failing with a `TypeError` on a
truthy non-sequence one — including a stripped key naming an inherited
`Object.prototype` property with no own entry, whose truthy inherited value
skips the sequence initialisation and has no `push` method; a scalar store
under the key `__proto__` is silently dropped by the inherited accessor. -/
def specQueryStep (qp : QueryParams) (pair : List Char) : Except String QueryParams :=
  match splitAtFirst '=' pair with
  | none =>
    .ok (if decodeQueryParamPart pair = "__proto__".data then qp
      else assocUpsert qp (decodeQueryParamPart pair) (.str ['t', 'r', 'u', 'e']))
  | some (rawKey, afterEq) =>
    let key0 := decodeQueryParamPart rawKey
    let v0 := afterEq.takeWhile (· ≠ '=')
    let value := if v0.isEmpty then [] else decodeQueryParamPart v0
    if key0.length > 2 && key0.drop (key0.length - 2) = ['[', ']'] then
      let key := key0.take (key0.length - 2)
      match assocLookup qp key with
      | some (.arr elems) => .ok (assocUpsert qp key (.arr (elems ++ [value])))
      | some (.str s) =>
        if s.isEmpty then .ok (assocUpsert qp key (.arr [value]))
        else .error "TypeError: queryParams[key].push is not a function"
      | none =>
        if objectProtoKey key then
          .error "TypeError: queryParams[key].push is not a function"
        else .ok (assocUpsert qp key (.arr [value]))
    else
      .ok (if key0 = "__proto__".data then qp else assocUpsert qp key0 (.str value))

/-- Query parsing as the amended spec sentence reads: split on `&`, process
each pair per `specQueryStep`. -/
def parseQuerySpecA (q : List Char) : Except String QueryParams :=
  (splitOnChar '&' q).foldlM specQueryStep []

/-- The emitted pairs for one key per the amended description of query
generation: skip `null`/absent values, one `key[]=value` pair per element (in
sequence order, key verbatim, value percent-encoded) for sequences, one
`key=value` pair (both percent-encoded) for scalars. -/
def querySpecPairs (params : QueryGenMap) (key : List Char) : List (List Char) :=
  match assocLookup params key with
  | none => []
  | some .null => []
  | some (.str v) => [encodeURIComponentL key ++ '=' :: encodeURIComponentL v]
  | some (.arr elems) => elems.map (fun e => key ++ '[' :: ']' :: '=' :: encodeURIComponentL e)

/-- Query generation as the amended spec sentence reads: keys sorted by
literal value, each key's pairs per `querySpecPairs`, joined with `&` and
prefixed with `?` when non-empty. -/
def generateQuerySpecA (params : QueryGenMap) : List Char :=
  let pairs := (sortKeys (params.map Prod.fst)).flatMap (querySpecPairs params)
  if pairs.isEmpty then [] else '?' :: (List.intercalate ['&'] pairs)

/-- The specificity digit of a segment by kind, as the spec assigns them:
Star 1, Epsilon 2, Dynamic 3, Static 4. -/
def segmentDigit : Segment → Char
  | .star _ => '1'
  | .epsilon => '2'
  | .dynamic _ => '3'
  | .static _ => '4'

/-- The linear state chain a single fresh `add` builds: one node per spec,
each with a single child, the accepting data on the last node. -/
def chainNode (spec : CharSpec) : List CharSpec → Accept → RState
  | [], a => .mk spec (some a) []
  | s2 :: rest, a => .mk spec none [chainNode s2 rest a]

/-- All nodes of such a chain, head first. -/
def chainNodes (spec : CharSpec) : List CharSpec → Accept → List RState
  | [], a => [chainNode spec [] a]
  | s2 :: rest, a => chainNode spec (s2 :: rest) a :: chainNodes s2 rest a

/-- The specificity number an accepting state is compared by (`0` when
absent; absence only arises for empty batches and is excluded where it
matters). -/
def sVal (s : RState) : Nat := (stateSpecVal s).getD 0

theorem copyList_eq (l : List α) : copyList l = l := by
  induction l with
  | nil => rfl
  | cons x xs ih => simp [copyList, ih]

theorem assocLookup_upsert_self (m : List (List Char × α)) (k : List Char) (v : α) :
    assocLookup (assocUpsert m k v) k = some v := by
  induction m with
  | nil => simp [assocUpsert, assocLookup]
  | cons p rest ih =>
    by_cases h : p.1 = k
    · simp [assocUpsert, assocLookup, h]
    · simp [assocUpsert, assocLookup, h, ih]

theorem assocUpsert_upsert_self (m : List (List Char × α)) (k : List Char) (v w : α) :
    assocUpsert (assocUpsert m k v) k w = assocUpsert m k w := by
  induction m with
  | nil => simp [assocUpsert]
  | cons p rest ih =>
    by_cases h : p.1 = k
    · simp [assocUpsert, h]
    · simp [assocUpsert, h, ih]

theorem foldl_append_of_step (f : List β → α → List β) (g : α → List β)
    (hf : ∀ acc x, f acc x = acc ++ g x) (l : List α) (acc : List β) :
    l.foldl f acc = acc ++ l.flatMap g := by
  induction l generalizing acc with
  | nil => simp
  | cons x xs ih => simp [hf, ih]

theorem qmark_shape (pairs : List (List Char)) :
    (if pairs.isEmpty then ([] : List Char) else '?' :: List.intercalate ['&'] pairs) = []
      ∨ (if pairs.isEmpty then ([] : List Char)
          else '?' :: List.intercalate ['&'] pairs).head? = some '?' := by
  cases pairs <;> simp

/-! ## The claims -/

/-- C7 — counterexample: the output of `generateQueryString` on a non-empty
mapping does begin with a leading `?`, contradicting the claim that it never
does and that the caller prefixes it. -/
theorem claim_C7_counterexample :
    generateQueryStringL [("a".data, QueryGenVal.str "1".data)] = "?a=1".data ∧
      ("?a=1".data).head? = some '?' := ⟨rfl, rfl⟩

/-- C7 (amended) — `generateQueryString` applied to an empty mapping yields
the empty string, and a non-empty output always begins with the `?` the
function itself prefixes (callers append it directly). -/
theorem claim_C7_amended :
    generateQueryStringL [] = [] ∧
      ∀ params : QueryGenMap,
        generateQueryStringL params = []
          ∨ (generateQueryStringL params).head? = some '?' := by
  refine ⟨rfl, fun params => ?_⟩
  unfold generateQueryStringL
  exact qmark_shape _

/-- C8 — the accepting data written by `add` carries the specificity of the
*last* route parsed in the batch (the shared `specificity` object is
re-filled by each `parse` call), whatever the earlier routes' specificity
classes were; the first conjunct records that this very data is what `add`
stores on the batch's final shared state. -/
theorem claim_C8 (r : Router) (routes : List RouteDef) (asName : Option (List Char))
    (h : routes ≠ []) :
    (r.add routes asName).rootState
        = insertPath (batchSpecs routes) r.rootState (batchAccept routes) ∧
      (batchAccept routes).specificity = some (routeSpecVal (routes.getLast h).path) := by
  refine ⟨rfl, ?_⟩
  unfold batchAccept
  rw [List.getLast?_map, List.getLast?_eq_getLast _ h]
  rfl

/-- C8 — witness: a two-route batch whose routes imply different specificity
classes (`/a/b` scores 44, `/:x` scores 3); the stored score is the last
route's, 3. -/
theorem claim_C8_witness :
    (emptyRouter.add [⟨"/a/b".data, 1⟩, ⟨"/:x".data, 2⟩] none).rootState
        = insertPath (batchSpecs [⟨"/a/b".data, 1⟩, ⟨"/:x".data, 2⟩]) emptyRouter.rootState
            (batchAccept [⟨"/a/b".data, 1⟩, ⟨"/:x".data, 2⟩]) ∧
      (batchAccept [⟨"/a/b".data, 1⟩, ⟨"/:x".data, 2⟩]).specificity
        = some (routeSpecVal "/:x".data) :=
  claim_C8 emptyRouter [⟨"/a/b".data, 1⟩, ⟨"/:x".data, 2⟩] none (by decide)

/-- C9 — counterexample: `this.names` is a `{}` literal, so for the
never-registered name `"constructor"` the property read finds the inherited
`Object.prototype` member: `hasRoute("constructor")` returns `true` on a
fresh engine, and `generate`/`handlersFor` pass the `!route` guard (the
inherited value is truthy) and throw a `TypeError` — reading
`.segments`/`.handlers` of the inherited function yields `undefined` — not
the `NoSuchRoute` error carrying the requested name, refuting the claim's
universal. -/
theorem claim_C9_counterexample :
    emptyRouter.hasRoute "constructor".data = true
    ∧ emptyRouter.generate "constructor".data [] none
        = .error "TypeError: cannot read properties of undefined"
    ∧ emptyRouter.handlersFor "constructor".data
        = .error "TypeError: cannot read properties of undefined" :=
  ⟨rfl, rfl, rfl⟩

/-- C9 (amended) — for a name never registered via `options.as`: when it is
not an `Object.prototype` property name, `generate` and `handlersFor` fail
with the explicit `"There is no route named " + name` error and `hasRoute`
is `false`; when it names an inherited `Object.prototype` property, the
inherited value is truthy, so `hasRoute` is `true` and both calls throw a
`TypeError` that does not carry the name.  In both cases the state-passing
forms return the input engine state, so neither call mutates the engine. -/
theorem claim_C9_amended (r : Router) (name : List Char)
    (params : List (List Char × List Char)) (qp : Option QueryGenMap)
    (h : assocLookup r.names name = none) :
    (objectProtoKey name = false →
      r.generateT name params qp
          = (.error ("There is no route named " ++ String.mk name), r) ∧
        r.handlersForT name
          = (.error ("There is no route named " ++ String.mk name), r) ∧
        r.hasRoute name = false)
    ∧ (objectProtoKey name = true →
      r.generateT name params qp
          = (.error "TypeError: cannot read properties of undefined", r) ∧
        r.handlersForT name
          = (.error "TypeError: cannot read properties of undefined", r) ∧
        r.hasRoute name = true) := by
  unfold Router.generateT Router.generate Router.handlersForT Router.handlersFor
    Router.hasRoute
  rw [h]
  constructor
  · intro hp
    rw [hp]
    simp
  · intro hp
    rw [hp]
    simp

/-- C9 witness: the non-prototype conclusion at the unregistered name
`"nope"`, and the prototype conclusion at the unregistered name
`"toString"`. -/
theorem claim_C9_witness :
    (emptyRouter.generateT "nope".data [] none
        = (.error ("There is no route named " ++ String.mk "nope".data), emptyRouter) ∧
      emptyRouter.handlersForT "nope".data
        = (.error ("There is no route named " ++ String.mk "nope".data), emptyRouter) ∧
      emptyRouter.hasRoute "nope".data = false)
    ∧ (emptyRouter.generateT "toString".data [] none
        = (.error "TypeError: cannot read properties of undefined", emptyRouter) ∧
      emptyRouter.handlersForT "toString".data
        = (.error "TypeError: cannot read properties of undefined", emptyRouter) ∧
      emptyRouter.hasRoute "toString".data = true) :=
  ⟨(claim_C9_amended emptyRouter "nope".data [] none rfl).1 (by decide),
   (claim_C9_amended emptyRouter "toString".data [] none rfl).2 (by decide)⟩

/-- C10 — `handlersFor` on a registered name returns the element-by-element
copy of the stored handler list (same entries, same order) and leaves the
engine state unchanged (the state-passing form returns the input state), so
no mutation of the returned array can reach the registry and a repeated call
answers the same. -/
theorem claim_C10 (r : Router) (name : List Char) (route : NamedRoute)
    (h : assocLookup r.names name = some route) :
    r.handlersForT name = (.ok route.handlers, r) := by
  unfold Router.handlersForT Router.handlersFor
  rw [h]
  simp [copyList_eq]

/-- C10 — witness on a concrete registered route. -/
theorem claim_C10_witness :
    (emptyRouter.add [⟨"/posts/:id".data, 2⟩] (some "post".data)).handlersForT "post".data
      = (.ok [routeHandler ⟨"/posts/:id".data, 2⟩],
          emptyRouter.add [⟨"/posts/:id".data, 2⟩] (some "post".data)) :=
  claim_C10 _ _
    ⟨batchSegments [⟨"/posts/:id".data, 2⟩], [routeHandler ⟨"/posts/:id".data, 2⟩]⟩ rfl

/-- C6 — counterexample: array-valued keys are emitted verbatim, not
percent-encoded — the key `"a b"` reaches the output with its raw space,
though its percent-encoding is `"a%20b"`, contradicting "percent-encodes all
keys". -/
theorem claim_C6_counterexample :
    generateQueryStringL [("a b".data, QueryGenVal.arr ["1".data])] = "?a b[]=1".data ∧
      encodeURIComponentL "a b".data = "a%20b".data ∧
      ("?a b[]=1".data).contains '%' = false := ⟨rfl, rfl, rfl⟩

/-- C6 (amended) — `generateQueryString` emits pairs with keys sorted by
literal value, skips `null`/absent values, emits one `key[]=value` pair per
element in sequence order for sequence values (keys verbatim, values
percent-encoded) and `key=value` with both sides percent-encoded for scalars,
and joins the pairs with `&` (behind the leading `?` of C7). -/
theorem claim_C6_amended (params : QueryGenMap) :
    generateQueryStringL params = generateQuerySpecA params := by
  have hstep : ∀ (acc : List (List Char)) (key : List Char),
      (match assocLookup params key with
        | none => acc
        | some .null => acc
        | some (.str value) =>
          acc ++ [encodeURIComponentL key ++ '=' :: encodeURIComponentL value]
        | some (.arr value) =>
          acc ++ value.map (fun e => key ++ '[' :: ']' :: '=' :: encodeURIComponentL e))
        = acc ++ querySpecPairs params key := by
    intro acc key
    unfold querySpecPairs
    cases assocLookup params key with
    | none => simp
    | some v => cases v <;> simp
  unfold generateQueryStringL generateQuerySpecA
  dsimp only
  rw [foldl_append_of_step _ (querySpecPairs params) hstep]
  simp

theorem splitOnChar_ne_nil (sep : Char) (cs : List Char) : splitOnChar sep cs ≠ [] := by
  cases cs with
  | nil => simp [splitOnChar]
  | cons c rest =>
    simp only [splitOnChar]
    split
    · simp
    · split <;> simp

theorem splitOnChar_no_sep (sep : Char) (cs : List Char) (h : cs.contains sep = false) :
    splitOnChar sep cs = [cs] := by
  induction cs with
  | nil => rfl
  | cons c rest ih =>
    rw [List.contains_cons, Bool.or_eq_false_iff] at h
    have h1 : ¬ c = sep := fun e => by
      rw [e] at h
      simp at h
    simp only [splitOnChar, if_neg h1, ih h.2]

theorem splitOnChar_structure (sep : Char) (cs : List Char) :
    splitOnChar sep cs =
      cs.takeWhile (· ≠ sep) ::
        (match splitAtFirst sep cs with
          | none => []
          | some (_, rest) => splitOnChar sep rest) := by
  induction cs with
  | nil => simp [splitOnChar, splitAtFirst]
  | cons c rest ih =>
    by_cases hc : c = sep
    · subst hc
      have h1 : splitAtFirst c (c :: rest) = some ([], rest) := by
        unfold splitAtFirst
        rw [if_pos (by simp [List.contains_cons])]
        simp [List.takeWhile_cons, List.dropWhile_cons]
      rw [h1]
      simp [splitOnChar, List.takeWhile_cons]
    · have hbeq : (sep == c) = false := by
        simp only [beq_eq_false_iff_ne, ne_eq]
        exact fun e => hc e.symm
      have hcontains : (c :: rest).contains sep = rest.contains sep := by
        rw [List.contains_cons, hbeq, Bool.false_or]
      cases hr : rest.contains sep with
      | false =>
        have hn1 : splitAtFirst sep (c :: rest) = none := by
          unfold splitAtFirst
          rw [if_neg (by rw [hcontains, hr]; exact Bool.false_ne_true)]
        have hn2 : splitAtFirst sep rest = none := by
          unfold splitAtFirst
          rw [if_neg (by rw [hr]; exact Bool.false_ne_true)]
        rw [hn1]
        rw [hn2] at ih
        simp only [splitOnChar, if_neg hc, ih]
        simp [List.takeWhile_cons, hc]
      | true =>
        have hs1 : splitAtFirst sep (c :: rest)
            = some (c :: rest.takeWhile (· ≠ sep), (rest.dropWhile (· ≠ sep)).tail) := by
          unfold splitAtFirst
          rw [if_pos (by rw [hcontains, hr])]
          simp [List.takeWhile_cons, List.dropWhile_cons, hc]
        have hs2 : splitAtFirst sep rest
            = some (rest.takeWhile (· ≠ sep), (rest.dropWhile (· ≠ sep)).tail) := by
          unfold splitAtFirst
          rw [if_pos hr]
        rw [hs1]
        rw [hs2] at ih
        simp only [splitOnChar, if_neg hc, ih]
        simp [List.takeWhile_cons, hc]

theorem splitOnChar_head (sep : Char) (cs : List Char) :
    (splitOnChar sep cs).head? = some (cs.takeWhile (· ≠ sep)) := by
  rw [splitOnChar_structure]
  rfl

theorem queryAssignEq (qp : QueryParams) (k0 val : List Char) :
    (let isArr : Bool := k0.length > 2 && k0.drop (k0.length - 2) = ['[', ']']
     let key := if isArr then k0.take (k0.length - 2) else k0
     let qp2 := if isArr && !qpReadTruthy qp key then
       assocUpsert qp key (QueryVal.arr []) else qp
     if isArr then
       match assocLookup qp2 key with
       | some (QueryVal.arr elems) =>
         Except.ok (assocUpsert qp2 key (QueryVal.arr (elems ++ [val])))
       | _ => Except.error "TypeError: queryParams[key].push is not a function"
     else Except.ok (if key = "__proto__".data then qp2
       else assocUpsert qp2 key (QueryVal.str val)))
    = (if (k0.length > 2 && k0.drop (k0.length - 2) = ['[', ']'] : Bool) then
        match assocLookup qp (k0.take (k0.length - 2)) with
        | some (QueryVal.arr elems) =>
          Except.ok (assocUpsert qp (k0.take (k0.length - 2)) (QueryVal.arr (elems ++ [val])))
        | some (QueryVal.str s) =>
          if s.isEmpty then
            Except.ok (assocUpsert qp (k0.take (k0.length - 2)) (QueryVal.arr [val]))
          else Except.error "TypeError: queryParams[key].push is not a function"
        | none =>
          if objectProtoKey (k0.take (k0.length - 2)) then
            Except.error "TypeError: queryParams[key].push is not a function"
          else Except.ok (assocUpsert qp (k0.take (k0.length - 2)) (QueryVal.arr [val]))
      else Except.ok (if k0 = "__proto__".data then qp
        else assocUpsert qp k0 (QueryVal.str val))) := by
  dsimp only
  cases hcond : (decide (k0.length > 2) && decide (k0.drop (k0.length - 2) = ['[', ']'])) with
  | false =>
    simp
  | true =>
    simp only [if_true, Bool.true_and, Bool.not_eq_true']
    cases hl : assocLookup qp (k0.take (k0.length - 2)) with
    | none =>
      cases hpk : objectProtoKey (k0.take (k0.length - 2)) with
      | false =>
        simp [qpReadTruthy, qpTruthy, hl, hpk, assocLookup_upsert_self,
          assocUpsert_upsert_self]
      | true =>
        simp [qpReadTruthy, qpTruthy, hl, hpk]
    | some v =>
      cases v with
      | str s =>
        cases hse : s.isEmpty with
        | true =>
          simp [qpReadTruthy, qpTruthy, hl, hse, assocLookup_upsert_self,
            assocUpsert_upsert_self]
        | false =>
          simp [qpReadTruthy, qpTruthy, hl, hse]
      | arr elems =>
        simp [qpReadTruthy, qpTruthy, hl]

theorem parseQueryStep_eq_spec (qp : QueryParams) (pair : List Char) :
    parseQueryStep qp pair = specQueryStep qp pair := by
  by_cases hc : pair.contains '=' = true
  · have hsf : splitAtFirst '=' pair
        = some (pair.takeWhile (· ≠ '='), (pair.dropWhile (· ≠ '=')).tail) := by
      unfold splitAtFirst
      rw [if_pos hc]
    have hs : splitOnChar '=' pair
        = pair.takeWhile (· ≠ '=') :: splitOnChar '=' ((pair.dropWhile (· ≠ '=')).tail) := by
      rw [splitOnChar_structure '=' pair, hsf]
    have hne := splitOnChar_ne_nil '=' ((pair.dropWhile (· ≠ '=')).tail)
    have hlen : ¬ ((pair.takeWhile (· ≠ '=') ::
        splitOnChar '=' ((pair.dropWhile (· ≠ '=')).tail)).length = 1) := by
      simp only [List.length_cons]
      intro h
      apply hne
      have h0 : (splitOnChar '=' ((pair.dropWhile (· ≠ '=')).tail)).length = 0 := by omega
      exact List.length_eq_zero.mp h0
    have hget : ((pair.takeWhile (· ≠ '=')) ::
        splitOnChar '=' ((pair.dropWhile (· ≠ '=')).tail)).get? 1
        = some (((pair.dropWhile (· ≠ '=')).tail).takeWhile (· ≠ '=')) := by
      show (splitOnChar '=' ((pair.dropWhile (· ≠ '=')).tail)).get? 0 = _
      rw [List.get?_zero, splitOnChar_head]
    unfold parseQueryStep specQueryStep
    dsimp only
    rw [hsf, hs, if_neg hlen, hget]
    exact queryAssignEq qp _ _
  · have hr : pair.contains '=' = false := by
      cases h : pair.contains '='
      · rfl
      · exact absurd h hc
    have hsf : splitAtFirst '=' pair = none := by
      unfold splitAtFirst
      rw [if_neg hc]
    unfold parseQueryStep specQueryStep
    rw [hsf, splitOnChar_no_sep '=' pair hr]
    simp

/-- C5 — counterexample: the code splits each pair on *every* `=` and takes
`pair[1]`, so `"a=b=c"` stores value `"b"` (the claim's split-on-first-`=`
reading would store `"b=c"`); a decoded key of exactly `"[]"` is stored as a
scalar under `"[]"` (the array treatment needs a key length above 2), not
accumulated under the stripped empty name; and the query object's
`Object.prototype` chain breaks the accumulation/storage reading further:
`"constructor[]=x"` throws a `TypeError` (the inherited `constructor` is
truthy, so the sequence initialisation is skipped and the inherited value
has no `push` method) instead of accumulating `["x"]`, and `"__proto__=x"`
stores nothing (the inherited accessor drops the string assignment). -/
theorem claim_C5_counterexample :
    parseQueryStringL "a=b=c".data = .ok [("a".data, QueryVal.str "b".data)] ∧
      "b".data ≠ "b=c".data ∧
      parseQueryStringL "[]=x".data = .ok [("[]".data, QueryVal.str "x".data)] ∧
      parseQueryStringL "constructor[]=x".data
        = .error "TypeError: queryParams[key].push is not a function" ∧
      parseQueryStringL "__proto__=x".data = .ok [] :=
  ⟨rfl, by decide, rfl, rfl, rfl⟩

theorem mem_insertSol {a x : RState} {l : List RState} :
    a ∈ insertSol x l ↔ a = x ∨ a ∈ l := by
  induction l with
  | nil => simp [insertSol]
  | cons y ys ih =>
    simp only [insertSol]
    split
    · simp [List.mem_cons]
    · simp only [List.mem_cons, ih]
      tauto

theorem solCmp_lt {x y : RState} (hx : (stateSpecVal x).isSome)
    (hy : (stateSpecVal y).isSome) :
    solCmp x y < 0 ↔ sVal y < sVal x := by
  unfold solCmp sVal
  cases hxv : stateSpecVal x with
  | none => rw [hxv] at hx; simp at hx
  | some a =>
    cases hyv : stateSpecVal y with
    | none => rw [hyv] at hy; simp at hy
    | some b =>
      simp only [Option.getD_some]
      omega

theorem insertSol_head (x : RState) (l : List RState) :
    (insertSol x l).head? = some x ∨ (insertSol x l).head? = l.head? := by
  cases l with
  | nil => simp [insertSol]
  | cons y ys =>
    simp only [insertSol]
    split
    · simp
    · simp

theorem insertSol_sorted {x : RState} {l : List RState}
    (hx : (stateSpecVal x).isSome) (hl : ∀ a ∈ l, (stateSpecVal a).isSome)
    (h : l.Chain' (fun a b => sVal b ≤ sVal a)) :
    (insertSol x l).Chain' (fun a b => sVal b ≤ sVal a) := by
  induction l with
  | nil => simp [insertSol]
  | cons y ys ih =>
    have hy : (stateSpecVal y).isSome := hl y (by simp)
    have hys : ∀ a ∈ ys, (stateSpecVal a).isSome := fun a ha => hl a (by simp [ha])
    rw [List.chain'_cons'] at h
    simp only [insertSol]
    split
    · rename_i hcmp
      have hlt : sVal y < sVal x := (solCmp_lt hx hy).mp hcmp
      rw [List.chain'_cons]
      exact ⟨le_of_lt hlt, List.chain'_cons'.mpr h⟩
    · rename_i hcmp
      have hxy : sVal x ≤ sVal y := by
        have hnlt : ¬ sVal y < sVal x := fun hlt => hcmp ((solCmp_lt hx hy).mpr hlt)
        omega
      rw [List.chain'_cons']
      refine ⟨fun b hb => ?_, ih hys h.2⟩
      rcases insertSol_head x ys with hh | hh
      · rw [hh] at hb
        cases hb
        exact hxy
      · rw [hh] at hb
        exact h.1 b hb

theorem chain'_le_head (l : List RState) (x : RState)
    (h : (x :: l).Chain' (fun a b => sVal b ≤ sVal a)) :
    ∀ a ∈ l, sVal a ≤ sVal x := by
  induction l generalizing x with
  | nil => simp
  | cons y ys ih =>
    rw [List.chain'_cons] at h
    intro a ha
    rcases List.mem_cons.mp ha with rfl | ha'
    · exact h.1
    · exact le_trans (ih y h.2 a ha') h.1

theorem sortSolutions_spec (l : List RState) (hl : ∀ a ∈ l, (stateSpecVal a).isSome) :
    (∀ a, a ∈ sortSolutions l ↔ a ∈ l) ∧
      (sortSolutions l).Chain' (fun a b => sVal b ≤ sVal a) := by
  suffices h : ∀ (l acc : List RState),
      (∀ a ∈ l, (stateSpecVal a).isSome) → (∀ a ∈ acc, (stateSpecVal a).isSome) →
      acc.Chain' (fun a b => sVal b ≤ sVal a) →
      (∀ a, a ∈ l.foldl (fun acc x => insertSol x acc) acc ↔ a ∈ acc ∨ a ∈ l) ∧
        (l.foldl (fun acc x => insertSol x acc) acc).Chain' (fun a b => sVal b ≤ sVal a) by
    have h2 := h l [] hl (by simp) (by simp)
    unfold sortSolutions
    refine ⟨fun a => ?_, h2.2⟩
    rw [h2.1 a]
    simp
  intro l
  induction l with
  | nil =>
    intro acc _ hacc hch
    simpa using hch
  | cons x xs ih =>
    intro acc hl2 hacc hch
    simp only [List.foldl_cons]
    have hx : (stateSpecVal x).isSome := hl2 x (by simp)
    have hxs : ∀ a ∈ xs, (stateSpecVal a).isSome := fun a ha => hl2 a (by simp [ha])
    have hacc2 : ∀ a ∈ insertSol x acc, (stateSpecVal a).isSome := fun a ha => by
      rcases mem_insertSol.mp ha with rfl | h2
      · exact hx
      · exact hacc a h2
    obtain ⟨hmem, hsorted⟩ := ih (insertSol x acc) hxs hacc2 (insertSol_sorted hx hacc hch)
    refine ⟨fun a => ?_, hsorted⟩
    rw [hmem a, mem_insertSol]
    simp only [List.mem_cons]
    tauto

theorem sortSolutions_head_max (l : List RState)
    (hl : ∀ a ∈ l, (stateSpecVal a).isSome) (st : RState)
    (hst : (sortSolutions l).head? = some st) :
    st ∈ l ∧ ∀ a ∈ l, sVal a ≤ sVal st := by
  obtain ⟨hmem, hsorted⟩ := sortSolutions_spec l hl
  obtain ⟨tl, htl⟩ : ∃ tl, sortSolutions l = st :: tl := by
    cases hsl : sortSolutions l with
    | nil => rw [hsl] at hst; simp at hst
    | cons a as =>
      rw [hsl] at hst
      simp only [List.head?_cons, Option.some.injEq] at hst
      exact ⟨as, by rw [hst]⟩
  refine ⟨(hmem st).mp (by rw [htl]; simp), fun a ha => ?_⟩
  have ha2 : a ∈ st :: tl := by rw [← htl, hmem a]; exact ha
  rcases List.mem_cons.mp ha2 with rfl | ha3
  · exact le_refl _
  · rw [htl] at hsorted
    exact chain'_le_head tl st hsorted a ha3

theorem pieceDigit_eq (p : List Char) : pieceDigit p = segmentDigit (pieceSegment p) := by
  unfold pieceDigit pieceSegment segmentDigit
  split_ifs <;> rfl

/-- C1 — (first conjunct) the specificity stored by a single-route
registration is the number obtained by assigning each parsed segment its
digit by kind (Star 1, Epsilon 2, Dynamic 3, Static 4), concatenating the
digits in segment order and reading the digit string as a decimal integer;
(second conjunct) whenever `recognize`'s sorted solution list has a head (the
state whose handlers are returned), that head is one of the accepting states
of the final frontier and its score is maximal among them (given every one of
them carries a score, which every non-empty batch installs). -/
theorem claim_C1 :
    (∀ rd : RouteDef,
        (batchAccept [rd]).specificity
          = some (jsDigitsToNat ((parseRoute rd.path).segments.map segmentDigit))) ∧
      (∀ (r : Router) (workingPath : List Char) (st : RState),
        (∀ a ∈ (walkStates [r.rootState] workingPath).filter (fun s => s.accept.isSome),
            (stateSpecVal a).isSome) →
        (recognizeSolutions r workingPath).head? = some st →
        st ∈ (walkStates [r.rootState] workingPath).filter (fun s => s.accept.isSome) ∧
          ∀ a ∈ (walkStates [r.rootState] workingPath).filter (fun s => s.accept.isSome),
            sVal a ≤ sVal st) := by
  constructor
  · intro rd
    show some (routeSpecVal rd.path) = _
    unfold routeSpecVal parseRoute
    simp only [List.map_map]
    rw [show pieceDigit = segmentDigit ∘ pieceSegment from funext pieceDigit_eq]
  · intro r workingPath st hscored hhead
    exact sortSolutions_head_max _ hscored st hhead

/-- C1 — witness: `/posts/new` and `/posts/:id` both accept `"/posts/new"`;
the chosen head exists, lies in the two-state solution frontier and carries
the maximal score (44 over 43). -/
theorem claim_C1_witness :
    ((batchAccept [⟨"/posts/:id".data, 2⟩]).specificity
        = some (jsDigitsToNat
            ((parseRoute "/posts/:id".data).segments.map segmentDigit))) ∧
      (∃ st,
        (recognizeSolutions
            ((emptyRouter.add [⟨"/posts/new".data, 1⟩] none).add
              [⟨"/posts/:id".data, 2⟩] none) "/posts/new".data).head? = some st ∧
          st ∈ (walkStates
              [((emptyRouter.add [⟨"/posts/new".data, 1⟩] none).add
                  [⟨"/posts/:id".data, 2⟩] none).rootState]
              "/posts/new".data).filter (fun s => s.accept.isSome) ∧
            ∀ a ∈ (walkStates
                [((emptyRouter.add [⟨"/posts/new".data, 1⟩] none).add
                    [⟨"/posts/:id".data, 2⟩] none).rootState]
                "/posts/new".data).filter (fun s => s.accept.isSome),
              sVal a ≤ sVal st) := by
  refine ⟨claim_C1.1 ⟨"/posts/:id".data, 2⟩,
    ⟨((recognizeSolutions
        ((emptyRouter.add [⟨"/posts/new".data, 1⟩] none).add
          [⟨"/posts/:id".data, 2⟩] none) "/posts/new".data).head?).getD default,
      by rfl, ?_⟩⟩
  exact claim_C1.2 _ _ _ (by decide) (by rfl)

theorem buildParams_none_ok {names : List (List Char)} {flags : List Bool} {idx : Nat}
    {params : List (List Char × List Char)} {res : Nat × List (List Char × List Char)}
    (h : buildParams none names flags idx params = .ok res) : names = [] := by
  cases names with
  | nil => rfl
  | cons n ns => simp [buildParams] at h

theorem findHandlerLoop_none_ok (hds : List Handler) (idx : Nat) (acc : List RResult)
    (r2 : List RResult) (h : findHandlerLoop none hds idx acc = .ok r2) :
    ∀ hd ∈ hds, hd.names = [] := by
  induction hds generalizing idx acc with
  | nil => simp
  | cons hd tl ih =>
    intro x hx
    unfold findHandlerLoop at h
    cases hb : buildParams none hd.names hd.shouldDecodes idx [] with
    | error e =>
      rw [hb] at h
      exact absurd (h : Except.error e = Except.ok r2) (fun hh => Except.noConfusion hh)
    | ok pr =>
      obtain ⟨idx2, params⟩ := pr
      rw [hb] at h
      rcases List.mem_cons.mp hx with rfl | hx2
      · exact buildParams_none_ok hb
      · exact ih idx2 (acc ++ [⟨hd.handler, params, !hd.names.isEmpty⟩])
          (h : findHandlerLoop none tl idx2
            (acc ++ [⟨hd.handler, params, !hd.names.isEmpty⟩]) = Except.ok r2) x hx2

theorem findHandlerWith_none_ok (handlers : List Handler) (queryParams : QueryParams)
    (res : RecognizeResults)
    (h : findHandlerWith none handlers queryParams = Except.ok res) :
    ∀ hd ∈ handlers, hd.names = [] := by
  unfold findHandlerWith at h
  cases hf : findHandlerLoop none handlers 0 [] with
  | error e =>
    rw [hf] at h
    exact absurd (h : Except.error e = Except.ok res) (fun hh => Except.noConfusion hh)
  | ok results => exact findHandlerLoop_none_ok handlers 0 [] results hf

/-- C3 — counterexample: registering the pattern `/a b` and recognizing
`"/a%20b"` succeeds (the walk runs over the normalized `"/a b"`), yet the
chosen state's extraction regex `^/a b$` does *not* match the undecoded
extraction path `"/a%20b"` — the claim's "matches the entire path string
used for extraction" fails (the call survives only because this route
declares no parameter names, so the failed match is never indexed). -/
theorem claim_C3_counterexample :
    (emptyRouter.add [⟨"/a b".data, 9⟩] none).recognize "/a%20b".data
        = .ok (some ⟨[⟨9, [], false⟩], []⟩) ∧
      (emptyRouter.add [⟨"/a b".data, 9⟩] none).chosenState "/a%20b".data
        = .ok (some (⟨[⟨9, [], []⟩], [Segment.static "a b".data], some 4⟩,
            "/a%20b".data, [])) ∧
      regexMatchSegs [Segment.static "a b".data] "/a%20b".data = none :=
  ⟨rfl, rfl, rfl⟩

/-- C3 (amended) — whenever `recognize` returns a result, either the chosen
accepting state's anchored extraction regex matches the entire path string
used for extraction, or every handler of the chosen state declares no
parameter names — in which case the capture-lookup loop never touches the
failed (`null`) match (a failed match with declared names would make the
lookup throw instead of returning). -/
theorem claim_C3_amended (r : Router) (p : List Char) (res : RecognizeResults)
    (h : r.recognize p = .ok (some res)) :
    ∃ acc ep qp, r.chosenState p = .ok (some (acc, ep, qp)) ∧
      ((regexMatchSegs acc.regexSegs ep).isSome = true
        ∨ ∀ hd ∈ acc.handlers, hd.names = []) := by
  unfold Router.recognize at h
  cases hcs : r.chosenState p with
  | error e =>
    rw [hcs] at h
    exact absurd (h : Except.error e = Except.ok (some res))
      (fun hh => Except.noConfusion hh)
  | ok o =>
    rw [hcs] at h
    cases o with
    | none =>
      exact absurd (Except.ok.inj (h : Except.ok none = Except.ok (some res))) (by simp)
    | some trip =>
      obtain ⟨acc, ep, qp⟩ := trip
      refine ⟨acc, ep, qp, rfl, ?_⟩
      cases hm : regexMatchSegs acc.regexSegs ep with
      | some caps =>
        left
        simp
      | none =>
        right
        have h2 : (match findHandler acc ep qp with
            | .error e => (Except.error e : Except String (Option RecognizeResults))
            | .ok res2 => .ok (some res2)) = Except.ok (some res) := h
        cases hfh : findHandler acc ep qp with
        | error e =>
          rw [hfh] at h2
          exact absurd (h2 : Except.error e = Except.ok (some res))
            (fun hh => Except.noConfusion hh)
        | ok r0 =>
          unfold findHandler at hfh
          rw [hm] at hfh
          exact findHandlerWith_none_ok acc.handlers qp r0 hfh

/-- C3 — witness: a dynamic route where the match succeeds. -/
theorem claim_C3_witness :
    ∃ acc ep qp,
      (emptyRouter.add [⟨"/posts/:id".data, 2⟩] none).chosenState "/posts/5".data
          = .ok (some (acc, ep, qp)) ∧
        ((regexMatchSegs acc.regexSegs ep).isSome = true
          ∨ ∀ hd ∈ acc.handlers, hd.names = []) :=
  claim_C3_amended _ _ ⟨[⟨2, [("id".data, "5".data)], true⟩], []⟩ rfl

/-- C5 (amended) — `parseQueryString` splits the query on `&` and each pair
on `=`: a pair with no `=` maps its decoded key to the literal string
`"true"`; otherwise the value is the decoded text between the first and
second `=` (anything after a second `=` is discarded, and an empty value
component stays empty without decoding); a decoded key *longer than two
characters* ending in `[]` accumulates all same-key occurrences, in encounter
order, into a sequence stored under the key with the `[]` suffix stripped —
replacing an own falsy (empty-string) previous entry, and throwing a
`TypeError` on a truthy non-sequence one, which includes a stripped key
naming an inherited `Object.prototype` property with no own entry (its
truthy inherited value skips the sequence initialisation and has no `push`
method); and a scalar store under the key `__proto__` is silently dropped by
the inherited accessor. -/
theorem claim_C5_amended (q : List Char) :
    parseQueryStringL q = parseQuerySpecA q := by
  unfold parseQueryStringL parseQuerySpecA
  have h : parseQueryStep = specQueryStep := by
    funext qp pair
    exact parseQueryStep_eq_spec qp pair
  rw [h]

/-! ## Percent-encoding, decoding and normalization lemmas (round-trip) -/

theorem nsScan_ne_nil {cs : List Char} (h : cs ≠ []) : nsScan cs ≠ [] := by
  cases cs with
  | nil => exact absurd rfl h
  | cons c rest =>
    rw [nsScan.eq_def]
    split
    · simp_all
    · split
      · split
        · split
          · dsimp only
            split <;> simp
          · simp
        · simp
      · simp

theorem RState_accept_mk (x : CharSpec) (y : Option Accept) (z : List RState) :
    (RState.mk x y z).accept = y := rfl

end RR
